import Mathlib

/-!
Verification of the gallica downloader (src/gallica.py) against its
natural-language specification.  Each Python function relevant to a claim is
shallowly embedded as an executable Lean definition; network responses,
random jitter and the filesystem are passed in explicitly as oracles so that
the control flow of the source is reproduced exactly.
-/

namespace Gallica

/-! ## Download engine (src/gallica.py, `download_with_backoff`, lines 219-248)

Constants from lines 26-30 of the source: `MAX_TRIES = 8`,
`BASE_BACKOFF = 0.6`, `MAX_BACKOFF = 12.0`.  Seconds are modelled as
rationals (0.6 = 6/10, 12.0 = 12). -/

def MAX_TRIES : Nat := 8

def BASE_BACKOFF : ℚ := 6/10

def MAX_BACKOFF : ℚ := 12

/-- One download job: destination path, the number of bytes the server would
stream on an HTTP 200, the status code returned to the nth request
(1-indexed), and the value drawn by `random.uniform(0, 0.35)` before the nth
backoff sleep. -/
structure DlJob where
  dest : String
  body : Nat
  status : Nat → Nat
  jitter : Nat → ℚ

/-- Outcome of `download_with_backoff`: early return on the size check
(`skipped`), streamed 200 (`success`), `r.raise_for_status()` raising
(`httpError`), or the final `RuntimeError` after `MAX_TRIES` attempts
(`exhausted`, carrying the attempt count used in the message). -/
inductive DlResult where
  | skipped
  | success (attempt : Nat)
  | httpError (status : Nat)
  | exhausted (tries : Nat)
deriving DecidableEq

/-- Line 241 of the source: `if r.status_code in (403, 429, 503)`. -/
def retryable (s : Nat) : Bool := s == 403 || s == 429 || s == 503

/-- Lines 242-243: `wait = base * (2 ** (attempt - 1)) + random.uniform(0, 0.35)`
followed by `time.sleep(min(wait, MAX_BACKOFF))`. -/
def backoffWait (attempt : Nat) (j : ℚ) : ℚ :=
  min (BASE_BACKOFF * 2 ^ (attempt - 1) + j) MAX_BACKOFF

/-- The `for attempt in range(1, MAX_TRIES + 1)` loop of lines 227-246.
Arguments: current attempt number, remaining iterations.  Returns
(result, backoff sleeps performed, number of HTTP requests issued).
A status of 200 streams the body and returns; 403/429/503 sleeps the
capped backoff and retries; any status in [400, 600) makes
`r.raise_for_status()` raise; every other status (1xx, 2xx other than 200,
3xx) falls off the bottom of the loop body, so the loop silently moves to
the next attempt with no sleep.  Falling out of the loop raises the
`RuntimeError` mentioning `MAX_TRIES` attempts. -/
def attemptLoop (job : DlJob) : Nat → Nat → DlResult × List ℚ × Nat
  | _, 0 => (.exhausted MAX_TRIES, [], 0)
  | attempt, r + 1 =>
    let st := job.status attempt
    if st = 200 then (.success attempt, [], 1)
    else if retryable st then
      let t := attemptLoop job (attempt + 1) r
      (t.1, backoffWait attempt (job.jitter attempt) :: t.2.1, t.2.2 + 1)
    else if 400 ≤ st ∧ st < 600 then (.httpError st, [], 1)
    else
      let t := attemptLoop job (attempt + 1) r
      (t.1, t.2.1, t.2.2 + 1)

/-- Line 221: `out_path.exists() and out_path.stat().st_size > 50_000`.
The workspace maps a path to `some size` when the file exists. -/
def sizeOk : Option Nat → Bool
  | some n => 50000 < n
  | none => false

/-- `download_with_backoff` (lines 219-248).  Returns the loop outcome
together with the workspace after the call: a successful download writes
`job.body` bytes at `job.dest` (stream to `.part`, then `os.replace`);
every other outcome leaves the workspace unchanged. -/
def download_with_backoff (ws : String → Option Nat) (job : DlJob) :
    (DlResult × List ℚ × Nat) × (String → Option Nat) :=
  if sizeOk (ws job.dest) then ((.skipped, [], 0), ws)
  else
    let t := attemptLoop job 1 MAX_TRIES
    (t, match t.1 with
        | .success _ => fun q => if q = job.dest then some job.body else ws q
        | _ => ws)

/-- The download engine over a list of jobs (`parallel_download`, lines
251-265): every job is executed by `download_with_backoff`; the second
component counts the total number of HTTP requests issued.  Jobs write to
their own destinations, so the sequential order used here is immaterial to
the totals the claims are about. -/
def runEngine : (String → Option Nat) → List DlJob → (String → Option Nat) × Nat
  | ws, [] => (ws, 0)
  | ws, job :: rest =>
    let r := download_with_backoff ws job
    let t := runEngine r.2 rest
    (t.1, r.1.2.2 + t.2)

theorem attemptLoop_all_retryable (job : DlJob)
    (h : ∀ n, retryable (job.status n) = true) :
    ∀ r a, attemptLoop job a r =
      (.exhausted MAX_TRIES,
       (List.range r).map (fun k => backoffWait (a + k) (job.jitter (a + k))), r) := by
  intro r
  induction r with
  | zero => intro a; simp [attemptLoop]
  | succ n ih =>
    intro a
    have hst := h a
    have h200 : ¬ (job.status a = 200) := by
      intro hc
      rw [hc] at hst
      exact absurd hst (by decide)
    have hlist : (List.range (n + 1)).map (fun k => backoffWait (a + k) (job.jitter (a + k)))
        = backoffWait a (job.jitter a) ::
          (List.range n).map (fun k => backoffWait (a + 1 + k) (job.jitter (a + 1 + k))) := by
      rw [List.range_succ_eq_map, List.map_cons, List.map_map]
      refine congrArg₂ _ (by rw [Nat.add_zero]) ?_
      apply List.map_congr_left
      intro k _
      simp only [Function.comp_apply]
      have h3 : a + (k + 1) = a + 1 + k := by omega
      rw [h3]
    rw [attemptLoop]
    simp only [h200, if_false, hst, if_true, ih (a + 1), hlist]

/-- Claim C1: a job whose every request draws a retryable status (403, 429
or 503) makes exactly 8 attempts, fails with the `RuntimeError` naming 8
attempts, and each backoff sleep before a retry is
`min(0.6 * 2 ^ (attempt - 1) + jitter, 12.0)` seconds with jitter drawn from
[0, 0.35), hence every sleep is at most 12.0 seconds. -/
theorem download_retry_exhaustion (ws : String → Option Nat) (job : DlJob)
    (hskip : sizeOk (ws job.dest) = false)
    (hst : ∀ n, job.status n = 403 ∨ job.status n = 429 ∨ job.status n = 503)
    (_hji : ∀ n, 0 ≤ job.jitter n ∧ job.jitter n < 7/20) :
    (download_with_backoff ws job).1 =
      (.exhausted 8,
       (List.range 8).map (fun k => min (BASE_BACKOFF * 2 ^ k + job.jitter (k + 1)) MAX_BACKOFF),
       8)
    ∧ ∀ w ∈ (download_with_backoff ws job).1.2.1, w ≤ MAX_BACKOFF := by
  have hret : ∀ n, retryable (job.status n) = true := by
    intro n
    rcases hst n with h' | h' | h' <;> rw [retryable, h'] <;> decide
  have hloop := attemptLoop_all_retryable job hret MAX_TRIES 1
  have hmain : (download_with_backoff ws job).1 =
      (.exhausted 8,
       (List.range 8).map (fun k => min (BASE_BACKOFF * 2 ^ k + job.jitter (k + 1)) MAX_BACKOFF),
       8) := by
    rw [download_with_backoff]
    simp only [hskip, Bool.false_eq_true, if_false, hloop]
    refine congrArg₂ _ rfl (congrArg₂ _ ?_ rfl)
    apply List.map_congr_left
    intro k _
    rw [backoffWait]
    have h1 : 1 + k - 1 = k := by omega
    have h2 : 1 + k = k + 1 := by omega
    rw [h1, h2]
  refine ⟨hmain, ?_⟩
  intro w hw
  rw [hmain] at hw
  simp only [List.mem_map] at hw
  obtain ⟨k, _, hk⟩ := hw
  rw [← hk]
  exact min_le_right _ _

def jobC1 : DlJob := ⟨"page_0001.jpg", 120000, fun _ => 503, fun _ => 0⟩

theorem download_retry_exhaustion_witness :
    (download_with_backoff (fun _ => none) jobC1).1 =
      (.exhausted 8,
       (List.range 8).map (fun k => min (BASE_BACKOFF * 2 ^ k + jobC1.jitter (k + 1)) MAX_BACKOFF),
       8) :=
  (download_retry_exhaustion (fun _ => none) jobC1 rfl
    (fun _ => Or.inr (Or.inr rfl))
    (fun _ => ⟨le_refl 0, by show (0 : ℚ) < 7/20; norm_num⟩)).1

theorem attemptLoop_silent (job : DlJob)
    (h : ∀ n, job.status n ≠ 200 ∧ retryable (job.status n) = false ∧
      ¬ (400 ≤ job.status n ∧ job.status n < 600)) :
    ∀ r a, attemptLoop job a r = (.exhausted MAX_TRIES, [], r) := by
  intro r
  induction r with
  | zero => intro a; simp [attemptLoop]
  | succ n ih =>
    intro a
    obtain ⟨h200, hret, hrange⟩ := h a
    rw [attemptLoop]
    simp only [h200, if_false, hret, Bool.false_eq_true, hrange, ih (a + 1)]

/-- Claim C10: a job whose every response status is 2xx-but-not-200 or 3xx
is neither treated as success nor failed immediately: the request is
re-issued with no backoff sleep between attempts, and after 8 attempts the
job fails with the same `RuntimeError` (8 attempts) used for exhausted
retryable statuses.  The workspace is left unchanged. -/
theorem download_silent_retry (ws : String → Option Nat) (job : DlJob)
    (hskip : sizeOk (ws job.dest) = false)
    (hst : ∀ n, 200 ≤ job.status n ∧ job.status n < 400 ∧ job.status n ≠ 200) :
    (download_with_backoff ws job).1 = (.exhausted 8, [], 8)
    ∧ (download_with_backoff ws job).2 = ws := by
  have h : ∀ n, job.status n ≠ 200 ∧ retryable (job.status n) = false ∧
      ¬ (400 ≤ job.status n ∧ job.status n < 600) := by
    intro n
    obtain ⟨h1, h2, h3⟩ := hst n
    refine ⟨h3, ?_, by omega⟩
    simp only [retryable, Bool.or_eq_false_iff, beq_eq_false_iff_ne, ne_eq]
    omega
  have hloop := attemptLoop_silent job h MAX_TRIES 1
  constructor
  · rw [download_with_backoff]
    simp only [hskip, Bool.false_eq_true, if_false, hloop]
    rfl
  · rw [download_with_backoff]
    simp only [hskip, Bool.false_eq_true, if_false, hloop]

def jobC10 : DlJob := ⟨"page_0001.jpg", 120000, fun _ => 204, fun _ => 0⟩

theorem download_silent_retry_witness :
    (download_with_backoff (fun _ => none) jobC10).1 = (.exhausted 8, [], 8)
    ∧ (download_with_backoff (fun _ => none) jobC10).2 = (fun _ => none) :=
  download_silent_retry (fun _ => none) jobC10 rfl
    (fun _ => ⟨by show (200 : Nat) ≤ 204; decide, by show (204 : Nat) < 400; decide,
      by show (204 : Nat) ≠ 200; decide⟩)

/-- Claim C9 (amended): an attempt whose status is in [400, 600) and not
403/429/503 fails immediately by raising the HTTP error: exactly one
request, no backoff sleep, no retry, and the workspace is unchanged.
(The original claim said this of every non-2xx status; statuses outside
[400, 600), e.g. 304, are instead silently retried — see the
counterexample.) -/
theorem download_nonretryable_immediate (ws : String → Option Nat) (job : DlJob)
    (hskip : sizeOk (ws job.dest) = false)
    (h4 : 400 ≤ job.status 1) (h6 : job.status 1 < 600)
    (hnr : retryable (job.status 1) = false) :
    (download_with_backoff ws job).1 = (.httpError (job.status 1), [], 1)
    ∧ (download_with_backoff ws job).2 = ws := by
  have h200 : ¬ (job.status 1 = 200) := by omega
  have hloop : attemptLoop job 1 MAX_TRIES = (.httpError (job.status 1), [], 1) := by
    show attemptLoop job 1 (7 + 1) = _
    rw [attemptLoop]
    simp only [h200, if_false, hnr, Bool.false_eq_true]
    rw [if_pos ⟨h4, h6⟩]
  constructor
  · rw [download_with_backoff]
    simp only [hskip, Bool.false_eq_true, if_false, hloop]
  · rw [download_with_backoff]
    simp only [hskip, Bool.false_eq_true, if_false, hloop]

def jobC9 : DlJob := ⟨"page_0001.jpg", 120000, fun _ => 404, fun _ => 0⟩

theorem download_nonretryable_immediate_witness :
    (download_with_backoff (fun _ => none) jobC9).1 = (.httpError 404, [], 1)
    ∧ (download_with_backoff (fun _ => none) jobC9).2 = (fun _ => none) :=
  download_nonretryable_immediate (fun _ => none) jobC9 rfl
    (by decide) (by decide) rfl

def jobC9cex : DlJob := ⟨"page_0001.jpg", 120000, fun _ => 304, fun _ => 0⟩

/-- Counterexample to claim C9 as stated: HTTP 304 is a non-2xx status other
than 403, 429 and 503, yet the code does not fail immediately with the
underlying HTTP error — `raise_for_status()` is a no-op below 400, so the
loop re-issues the request 8 times and ends in the exhaustion error. -/
theorem download_304_not_immediate_cex :
    (download_with_backoff (fun _ => none) jobC9cex).1 = (.exhausted 8, [], 8)
    ∧ (download_with_backoff (fun _ => none) jobC9cex).1.1 ≠ .httpError 304
    ∧ (download_with_backoff (fun _ => none) jobC9cex).1.2.2 ≠ 1 := by
  refine ⟨rfl, ?_, ?_⟩ <;> decide

theorem download_skip (ws : String → Option Nat) (job : DlJob)
    (h : sizeOk (ws job.dest) = true) :
    download_with_backoff ws job = ((.skipped, [], 0), ws) := by
  rw [download_with_backoff, if_pos h]

theorem download_preserves_sizeOk (ws : String → Option Nat) (job : DlJob) (p : String)
    (hbig : 50000 < job.body) (h : sizeOk (ws p) = true) :
    sizeOk ((download_with_backoff ws job).2 p) = true := by
  rw [download_with_backoff]
  split
  · exact h
  · dsimp only
    cases hA : (attemptLoop job 1 MAX_TRIES).1 with
    | success attempt =>
      by_cases hp : p = job.dest
      · simp only [hp, if_pos rfl, sizeOk]
        exact decide_eq_true hbig
      · simpa only [if_neg hp] using h
    | skipped => exact h
    | httpError s => exact h
    | exhausted t => exact h

theorem runEngine_preserves_sizeOk (jobs : List DlJob) :
    ∀ (ws : String → Option Nat) (p : String),
      (∀ job ∈ jobs, 50000 < job.body) → sizeOk (ws p) = true →
      sizeOk ((runEngine ws jobs).1 p) = true := by
  induction jobs with
  | nil => intro ws p _ h; exact h
  | cons job rest ih =>
    intro ws p hbig h
    rw [runEngine]
    exact ih _ p (fun j hj => hbig j (List.mem_cons_of_mem _ hj))
      (download_preserves_sizeOk ws job p (hbig job (List.mem_cons_self _ _)) h)

theorem attemptLoop_first_200 (job : DlJob) (h : job.status 1 = 200) :
    attemptLoop job 1 MAX_TRIES = (.success 1, [], 1) := by
  show attemptLoop job 1 (7 + 1) = _
  rw [attemptLoop]
  simp [h]

theorem download_writes_sizeOk (ws : String → Option Nat) (job : DlJob)
    (h200 : job.status 1 = 200) (hbig : 50000 < job.body) :
    sizeOk ((download_with_backoff ws job).2 job.dest) = true := by
  rw [download_with_backoff]
  split
  · assumption
  · dsimp only
    rw [attemptLoop_first_200 job h200]
    simp only [if_pos rfl, sizeOk]
    exact decide_eq_true hbig

theorem runEngine_writes_sizeOk (jobs : List DlJob) :
    ∀ ws : String → Option Nat,
      (∀ job ∈ jobs, (∀ n, job.status n = 200) ∧ 50000 < job.body) →
      ∀ job ∈ jobs, sizeOk ((runEngine ws jobs).1 job.dest) = true := by
  induction jobs with
  | nil => intro ws _ job hj; exact absurd hj (List.not_mem_nil job)
  | cons j rest ih =>
    intro ws hgood job hj
    have hbig : ∀ job' ∈ rest, 50000 < job'.body :=
      fun j' hj' => (hgood j' (List.mem_cons_of_mem _ hj')).2
    rcases List.mem_cons.mp hj with hEq | hmem
    · subst hEq
      rw [runEngine]
      exact runEngine_preserves_sizeOk rest _ job.dest hbig
        (download_writes_sizeOk ws job ((hgood job (List.mem_cons_self _ _)).1 1)
          (hgood job (List.mem_cons_self _ _)).2)
    · rw [runEngine]
      exact ih _ (fun j' hj' => hgood j' (List.mem_cons_of_mem _ hj')) job hmem

theorem runEngine_all_skip (jobs : List DlJob) :
    ∀ ws : String → Option Nat,
      (∀ job ∈ jobs, sizeOk (ws job.dest) = true) →
      runEngine ws jobs = (ws, 0) := by
  induction jobs with
  | nil => intro ws _; rfl
  | cons j rest ih =>
    intro ws h
    rw [runEngine, download_skip ws j (h j (List.mem_cons_self _ _))]
    simp only [ih ws (fun j' hj' => h j' (List.mem_cons_of_mem _ hj'))]

/-- Claim C3 (amended): a job whose destination already holds strictly more
than 50,000 bytes returns success with zero HTTP requests and an untouched
workspace; and running the engine a second time over the same workspace with
identical jobs issues zero network requests provided every job downloads
successfully with a body larger than 50,000 bytes.  (The original unconditional
second-run statement fails when a downloaded body is at most 50,000 bytes —
see the counterexample.) -/
theorem engine_skip_and_threshold_idempotence :
    (∀ (ws : String → Option Nat) (job : DlJob), sizeOk (ws job.dest) = true →
      download_with_backoff ws job = ((.skipped, [], 0), ws))
    ∧ (∀ (jobs : List DlJob) (ws0 : String → Option Nat),
        (∀ job ∈ jobs, (∀ n, job.status n = 200) ∧ 50000 < job.body) →
        (runEngine (runEngine ws0 jobs).1 jobs).2 = 0) := by
  refine ⟨download_skip, ?_⟩
  intro jobs ws0 hgood
  rw [runEngine_all_skip jobs _ (runEngine_writes_sizeOk jobs ws0 hgood)]

def jobBig : DlJob := ⟨"page_0001.jpg", 60000, fun _ => 200, fun _ => 0⟩

theorem engine_skip_and_threshold_idempotence_witness :
    download_with_backoff (fun _ => some 60000) jobBig
      = ((.skipped, [], 0), fun _ => some 60000)
    ∧ (runEngine (runEngine (fun _ => none) [jobBig]).1 [jobBig]).2 = 0 :=
  ⟨engine_skip_and_threshold_idempotence.1 (fun _ => some 60000) jobBig rfl,
   engine_skip_and_threshold_idempotence.2 [jobBig] (fun _ => none)
     (fun job hj => by
       rw [List.mem_singleton] at hj
       subst hj
       exact ⟨fun _ => rfl, by decide⟩)⟩

def jobSmall : DlJob := ⟨"page_0001.jpg", 10, fun _ => 200, fun _ => 0⟩

/-- Counterexample to the second half of claim C3 as stated: a job whose
downloaded body is only 10 bytes succeeds on the first run (1 request,
file written with 10 bytes), but the second run over the resulting
workspace issues 1 network request, not 0, because 10 bytes is below the
50,000-byte skip threshold. -/
theorem engine_second_run_not_idempotent_cex :
    (runEngine (fun _ => none) [jobSmall]).2 = 1
    ∧ (runEngine (fun _ => none) [jobSmall]).1 "page_0001.jpg" = some 10
    ∧ (runEngine (runEngine (fun _ => none) [jobSmall]).1 [jobSmall]).2 = 1 :=
  ⟨rfl, rfl, rfl⟩

/-! ## Workspace cleaner (`safe_rmtree`, src/gallica.py lines 304-332)

Absolute resolved paths are modelled as lists of components from the
filesystem root; `[]` is the root `/` itself.  The function receives the
already-resolved workdir (the source calls `.resolve()` first), the resolved
home and current working directories, and the world of existing directories;
`shutil.rmtree` removes the workdir and everything below it. -/

def pathName (p : List String) : String := p.getLast?.getD ""

def safe_rmtree (home cwd wd : List String) (ark : String)
    (dirs : List (List String)) : Bool × List (List String) :=
  if wd = [] ∨ wd = home ∨ wd = cwd then (false, dirs)
  else if pathName wd ≠ "gallica_" ++ ark then (false, dirs)
  else (true, dirs.filter (fun d => !(wd.isPrefixOf d)))

/-- Claim C6: the cleaner deletes the workspace exactly when its resolved
path is none of the filesystem root, the home directory and the current
working directory AND its directory name is exactly `gallica_<ark>`; every
refusal returns `false` and leaves the directory world untouched rather than
raising; and a workdir equal to the home directory is always refused, even
when its name matches the pattern. -/
theorem safe_rmtree_guard_characterization
    (home cwd wd : List String) (ark : String) (dirs : List (List String)) :
    ((safe_rmtree home cwd wd ark dirs).1 = true ↔
      (wd ≠ [] ∧ wd ≠ home ∧ wd ≠ cwd ∧ pathName wd = "gallica_" ++ ark))
    ∧ ((safe_rmtree home cwd wd ark dirs).1 = false →
        (safe_rmtree home cwd wd ark dirs).2 = dirs)
    ∧ safe_rmtree home cwd home ark dirs = (false, dirs) := by
  refine ⟨?_, ?_, ?_⟩
  · rw [safe_rmtree]
    split
    · rename_i hf
      simp only [Bool.false_eq_true, false_iff]
      push_neg
      intro h1 h2 h3
      rcases hf with h | h | h <;> tauto
    · rename_i hf
      push_neg at hf
      split
      · rename_i hn
        simp only [Bool.false_eq_true, false_iff]
        tauto
      · rename_i hn
        push_neg at hn
        simp only [true_iff]
        exact ⟨hf.1, hf.2.1, hf.2.2, hn⟩
  · rw [safe_rmtree]
    split
    · intro _; rfl
    · split
      · intro _; rfl
      · intro h; exact absurd h (by simp)
  · rw [safe_rmtree]
    rw [if_pos (Or.inr (Or.inl rfl))]

theorem safe_rmtree_guard_characterization_witness :
    safe_rmtree ["home", "user"] ["tmp"] ["home", "user"] "bd6t54208770t"
      [["home", "user"]] = (false, [["home", "user"]])
    ∧ ((safe_rmtree ["home", "user"] ["tmp"] ["data", "gallica_bd6t54208770t"]
        "bd6t54208770t" []).1 = true ↔
      (["data", "gallica_bd6t54208770t"] ≠ ([] : List String)
        ∧ ["data", "gallica_bd6t54208770t"] ≠ ["home", "user"]
        ∧ ["data", "gallica_bd6t54208770t"] ≠ ["tmp"]
        ∧ pathName ["data", "gallica_bd6t54208770t"] = "gallica_" ++ "bd6t54208770t")) :=
  ⟨(safe_rmtree_guard_characterization ["home", "user"] ["tmp"] ["x"]
      "bd6t54208770t" [["home", "user"]]).2.2,
   (safe_rmtree_guard_characterization ["home", "user"] ["tmp"]
      ["data", "gallica_bd6t54208770t"] "bd6t54208770t" []).1⟩

/-! ## Manifest resolver (`get_manifest`, src/gallica.py lines 119-161)

The network is an oracle: `direct n` is the outcome of the (n+1)-th fetch of
the manifest URL (`fetch` with `expect_json=True`), `warmupOk r` tells
whether the `warmup` call of retry round `r` returns without raising,
`htmlPage u` is the body of viewer page `u` (0 or 1) when its fetch
succeeds with a 2xx status, `extract` is `extract_manifest_from_html`
applied to such a body, and `altFetch` fetches an extracted manifest URL.
Manifests, HTML bodies and URLs are abstract tokens (Nat). -/

inductive FetchOut where
  | ok (m : Nat)
  | httpErr (status : Nat)
  | exn
deriving DecidableEq

structure Net where
  direct : Nat → FetchOut
  warmupOk : Nat → Bool
  htmlPage : Nat → Option Nat
  extract : Nat → Option Nat
  altFetch : Nat → FetchOut

inductive GmErr where
  | httpErr (status : Nat)
  | exn
  | unreachable
deriving DecidableEq

/-- Trace of one `get_manifest` call: its result, the `time.sleep` calls of
the warm-up rounds, how many direct manifest fetches were issued, and
whether the HTML-scraping fallback (strategy 3) was entered. -/
structure GmTrace where
  result : Except GmErr Nat
  sleeps : List ℚ
  directCalls : Nat
  usedFallback : Bool

/-- The `for attempt in range(1, 4)` warm-up loop (lines 133-140): sleep
`0.7 * attempt`, warm up (silently tolerating failure, which skips the
direct retry of that round), then retry the direct manifest fetch; any
exception moves to the next round.  Arguments: current attempt number,
remaining rounds, direct fetches issued so far. -/
def gmLoop (net : Net) : Nat → Nat → Nat → Option Nat × List ℚ × Nat
  | _, 0, calls => (none, [], calls)
  | attempt, r + 1, calls =>
    let sl : ℚ := 7/10 * (attempt : ℚ)
    if net.warmupOk attempt then
      match net.direct calls with
      | .ok m => (some m, [sl], calls + 1)
      | _ =>
        let t := gmLoop net (attempt + 1) r (calls + 1)
        (t.1, sl :: t.2.1, t.2.2)
    else
      let t := gmLoop net (attempt + 1) r calls
      (t.1, sl :: t.2.1, t.2.2)

/-- The HTML fallback loop (lines 143-156) over the two viewer URLs: fetch
the page, extract a manifest URL from its body (`if alt:`), fetch that; any
exception or missing extraction continues with the next URL. -/
def gmFallback (net : Net) : List Nat → Option Nat
  | [] => none
  | u :: us =>
    match net.htmlPage u with
    | none => gmFallback net us
    | some body =>
      match net.extract body with
      | none => gmFallback net us
      | some alt =>
        match net.altFetch alt with
        | .ok m => some m
        | _ => gmFallback net us

/-- `get_manifest` (lines 119-161).  Strategy 1 catches only
`requests.HTTPError`; a 403 status escalates to the warm-up rounds and then
to the HTML fallback, any other HTTP error status re-raises immediately, and
a non-HTTP exception (e.g. the JSON decode of a 200 body failing)
propagates.  Exhausting all three strategies raises the final
`RuntimeError`. -/
def get_manifest (net : Net) : GmTrace :=
  match net.direct 0 with
  | .ok m => ⟨.ok m, [], 1, false⟩
  | .exn => ⟨.error .exn, [], 1, false⟩
  | .httpErr s =>
    if s = 403 then
      let t := gmLoop net 1 3 1
      match t.1 with
      | some m => ⟨.ok m, t.2.1, t.2.2, false⟩
      | none =>
        match gmFallback net [0, 1] with
        | some m => ⟨.ok m, t.2.1, t.2.2, true⟩
        | none => ⟨.error .unreachable, t.2.1, t.2.2, true⟩
    else ⟨.error (.httpErr s), [], 1, false⟩

/-- Claim C2: a direct manifest fetch failing with an HTTP error status
other than 403 propagates immediately as fatal — one direct call, no sleeps,
no fallback; whereas a 403 leads to 3 warm-up retry rounds sleeping
`0.7 * round_number` seconds each (rounds 1, 2, 3), and when every retried
direct fetch also fails, the resolver proceeds to the HTML-scraping
fallback after the third round, having issued 4 direct fetches in total. -/
theorem get_manifest_fallback_protocol (net : Net) :
    (∀ s, net.direct 0 = .httpErr s → s ≠ 403 →
      get_manifest net = ⟨.error (.httpErr s), [], 1, false⟩)
    ∧ (net.direct 0 = .httpErr 403 →
      (∀ r, net.warmupOk r = true) →
      (∀ k, 1 ≤ k → ∀ m, net.direct k ≠ .ok m) →
      (get_manifest net).sleeps = [7/10 * 1, 7/10 * 2, 7/10 * 3]
      ∧ (get_manifest net).directCalls = 4
      ∧ (get_manifest net).usedFallback = true) := by
  constructor
  · intro s hdir hs
    rw [get_manifest, hdir]
    dsimp only
    rw [if_neg hs]
  · intro hdir hw hfail
    have hloop : gmLoop net 1 3 1 = (none, [7/10 * 1, 7/10 * 2, 7/10 * 3], 4) := by
      have h1 := hw 1
      have h2 := hw 2
      have h3 := hw 3
      rw [gmLoop]
      simp only [h1, if_true]
      rcases hd1 : net.direct 1 with m | s | _
      · exact absurd hd1 (by intro hc; exact hfail 1 (by omega) m hc)
      all_goals
        simp only
        rw [gmLoop]
        simp only [h2, if_true]
        rcases hd2 : net.direct 2 with m2 | s2 | _
        · exact absurd hd2 (by intro hc; exact hfail 2 (by omega) m2 hc)
        all_goals
          simp only
          rw [gmLoop]
          simp only [h3, if_true]
          rcases hd3 : net.direct 3 with m3 | s3 | _
          · exact absurd hd3 (by intro hc; exact hfail 3 (by omega) m3 hc)
          all_goals
            simp only
            rw [gmLoop]
            norm_num
    rw [get_manifest, hdir]
    dsimp only
    rw [if_pos rfl]
    simp only [hloop]
    rcases hf : gmFallback net [0, 1] with _ | m <;> simp

def netC2 : Net :=
  ⟨fun k => if k = 0 then .httpErr 403 else .httpErr 503,
   fun _ => true, fun _ => none, fun _ => none, fun _ => .exn⟩

theorem get_manifest_fallback_protocol_witness :
    (get_manifest netC2).sleeps = [7/10 * 1, 7/10 * 2, 7/10 * 3]
    ∧ (get_manifest netC2).directCalls = 4
    ∧ (get_manifest netC2).usedFallback = true :=
  (get_manifest_fallback_protocol netC2).2 rfl (fun _ => rfl)
    (fun k hk m => by
      show (if k = 0 then FetchOut.httpErr 403 else FetchOut.httpErr 503) ≠ _
      rw [if_neg (by omega : ¬ k = 0)]
      exact fun hc => FetchOut.noConfusion hc)

/-! ## Canvas enumerator (`canvas_image_service_id`, src/gallica.py lines 177-200)

A small model of the Python values a decoded manifest canvas can hold, with
Python truthiness, `dict.get` (AttributeError on non-dicts), `x[0]`
(TypeError / IndexError / KeyError depending on the receiver) and `x[key]`
subscripts.  The v2 branch of the source is not wrapped in try/except, so
its exceptions propagate; the whole v3 branch is inside
`try: ... except Exception: pass`, so any exception there falls through to
the final `raise RuntimeError`. -/

inductive Json where
  | null
  | bool (b : Bool)
  | num (n : Int)
  | str (s : String)
  | arr (xs : List Json)
  | obj (kvs : List (String × Json))

/-- Python truthiness of a decoded JSON value. -/
def truthy : Json → Bool
  | .null => false
  | .bool b => b
  | .num n => n != 0
  | .str s => s != ""
  | .arr xs => !xs.isEmpty
  | .obj kvs => !kvs.isEmpty

/-- Python `x.get(key, default)`: only dicts have `.get`; anything else
raises AttributeError. -/
def jGet (j : Json) (k : String) (dflt : Json) : Except String Json :=
  match j with
  | .obj kvs => .ok ((kvs.lookup k).getD dflt)
  | _ => .error "AttributeError"

/-- Python `x[0]`: first element of a list, first character of a string
(IndexError when empty), KeyError on a dict whose keys are strings,
TypeError otherwise. -/
def jIndex0 : Json → Except String Json
  | .arr (x :: _) => .ok x
  | .arr [] => .error "IndexError"
  | .str s =>
    match s.data with
    | c :: _ => .ok (.str (String.mk [c]))
    | [] => .error "IndexError"
  | .obj _ => .error "KeyError"
  | _ => .error "TypeError"

/-- Python `x[key]` with a string key: KeyError when absent on a dict,
TypeError on every non-dict. -/
def jSub (j : Json) (k : String) : Except String Json :=
  match j with
  | .obj kvs =>
    match kvs.lookup k with
    | some v => .ok v
    | none => .error "KeyError"
  | _ => .error "TypeError"

/-- The v2 branch (lines 179-185): `imgs = canvas.get("images")`;
if truthy, `imgs[0].get("resource", {}).get("service", {})`, then
`sid = svc.get("@id") or svc.get("id")` (the `or` short-circuits), and the
value is returned only `if sid:`.  Exceptions propagate (this branch has no
try/except).  Returns `some sid` for a v2 hit, `none` for fall-through. -/
def v2ServiceId (canvas : List (String × Json)) : Except String (Option Json) :=
  let imgs := (canvas.lookup "images").getD .null
  if truthy imgs then do
    let i0 ← jIndex0 imgs
    let res ← jGet i0 "resource" (.obj [])
    let svc ← jGet res "service" (.obj [])
    let a ← jGet svc "@id" .null
    if truthy a then pure (some a)
    else do
      let b ← jGet svc "id" .null
      pure (if truthy b then some b else none)
  else pure none

/-- The v3 branch (lines 188-198): `items = canvas.get("items", [])`; if
truthy, navigate `items[0]["items"][0]["body"].get("service")` inside
`try: ... except Exception: pass`, and when the service is a non-empty list
return `svc[0].get("id") or svc[0].get("@id")` — note that this `return`
fires even when both keys are missing, returning Python `None`
(`Json.null`).  `none` here means the branch fell through (exception or no
return). -/
def v3ServiceId (canvas : List (String × Json)) : Option Json :=
  let items := (canvas.lookup "items").getD (.arr [])
  if truthy items then
    match jIndex0 items with
    | .error _ => none
    | .ok annopage =>
      match jSub annopage "items" with
      | .error _ => none
      | .ok annos =>
        match jIndex0 annos with
        | .error _ => none
        | .ok a0 =>
          match jSub a0 "body" with
          | .error _ => none
          | .ok body =>
            match jGet body "service" .null with
            | .error _ => none
            | .ok svc =>
              match svc with
              | .arr (s0 :: _) =>
                match jGet s0 "id" .null with
                | .error _ => none
                | .ok v1 =>
                  if truthy v1 then some v1
                  else
                    match jGet s0 "@id" .null with
                    | .error _ => none
                    | .ok v2 => some v2
              | _ => none
  else none

def noServiceMsg : String :=
  "Impossible de trouver le service IIIF image pour une page (structure inattendue)."

/-- `canvas_image_service_id` (lines 177-200): try the v2 path (whose
exceptions propagate), then the v3 path (whose exceptions are swallowed),
and raise the RuntimeError only when both fall through without a return. -/
def canvas_image_service_id (canvas : List (String × Json)) : Except String Json :=
  match v2ServiceId canvas with
  | .error e => .error e
  | .ok (some sid) => .ok sid
  | .ok none =>
    match v3ServiceId canvas with
    | some v => .ok v
    | none => .error noServiceMsg

/-- A canvas whose v3 structure navigates cleanly to a service list whose
first entry has neither an "id" nor an "@id" key. -/
def canvasNoKeys : List (String × Json) :=
  [("items", .arr [ .obj [("items",
    .arr [ .obj [("body", .obj [("service", .arr [ .obj [] ])])] ])] ])]

/-- Claim C5 fails on the code: on a canvas where neither schema path yields
an identifier (the v3 service entry has neither key spelling), the function
does not raise the fatal "no image service found" RuntimeError — the v3
branch's `return svc[0].get("id") or svc[0].get("@id")` returns Python
`None`, so the function does return an absent identifier. -/
theorem canvas_service_returns_none_slip :
    canvas_image_service_id canvasNoKeys = .ok .null
    ∧ canvas_image_service_id canvasNoKeys ≠ .error noServiceMsg := by
  refine ⟨rfl, ?_⟩
  intro h
  rw [(rfl : canvas_image_service_id canvasNoKeys = .ok .null)] at h
  exact Except.noConfusion h

/-! ## Assembler (`assemble_pdf`, src/gallica.py lines 271-298) and page
ordering (`main`, lines 404-426)

An image file is an abstract payload plus a pixel mode; the Pillow fallback
converts every page with `.convert("RGB")` while img2pdf works on the
encoded bytes directly.  `read` models opening a path in the workspace.
img2pdf raises on a missing file (caught, falling through to Pillow), and
`pil_images[0]` on an empty list raises IndexError, caught by the final
`except` that raises the installation-guidance RuntimeError. -/

structure Img where
  data : Nat
  mode : String
deriving DecidableEq

def convertRGB (im : Img) : Img := { im with mode := "RGB" }

def assembleMsg : String :=
  "Impossible de assembler en PDF. Installe img2pdf ou pillow."

def assemble_pdf (img2pdfOk pilOk : Bool) (read : String → Option Img)
    (paths : List String) : Except String (List Img) :=
  match (if img2pdfOk then paths.mapM read else none) with
  | some imgs => .ok imgs
  | none =>
    if pilOk then
      match paths.mapM read with
      | none => .error assembleMsg
      | some imgs =>
        match imgs.map convertRGB with
        | [] => .error assembleMsg
        | first :: rest => .ok (first :: rest)
    else .error assembleMsg

theorem mapM_of_map_some {α β : Type} (f : α → Option β) :
    ∀ (paths : List α) (imgs : List β), paths.map f = imgs.map some →
      paths.mapM f = some imgs := by
  intro paths
  induction paths with
  | nil =>
    intro imgs h
    cases imgs with
    | nil => rfl
    | cons i is => exact absurd h (by simp)
  | cons p ps ih =>
    intro imgs h
    cases imgs with
    | nil => exact absurd h (by simp)
    | cons i is =>
      simp only [List.map_cons, List.cons.injEq] at h
      rw [List.mapM_cons, h.1, ih is h.2]
      rfl

theorem assemble_primary (pilOk : Bool) (read : String → Option Img)
    (paths : List String) (imgs : List Img) (h : paths.mapM read = some imgs) :
    assemble_pdf true pilOk read paths = .ok imgs := by
  rw [assemble_pdf, if_pos rfl, h]

theorem assemble_fallback (read : String → Option Img)
    (paths : List String) (imgs : List Img) (h : paths.mapM read = some imgs)
    (hne : imgs ≠ []) :
    assemble_pdf false true read paths = .ok (imgs.map convertRGB) := by
  cases imgs with
  | nil => exact absurd rfl hne
  | cons i is =>
    rw [assemble_pdf, if_neg (by simp)]
    dsimp only
    rw [if_pos rfl, h]
    dsimp only [List.map_cons]

theorem assemble_unavailable (read : String → Option Img) (paths : List String) :
    assemble_pdf false false read paths = .error assembleMsg := by
  rw [assemble_pdf, if_neg (by simp)]
  dsimp only
  rw [if_neg (by simp)]

/-- Claim C8: with img2pdf importable, assembly uses the primary strategy on
the encoded images as given (the Pillow fallback and its RGB normalisation
are used only when the primary is unavailable); with only Pillow, each page
is decoded, converted to RGB and written in one combined pass based on the
first page; with neither, assembly fails with the installation message
naming both required capabilities, img2pdf and pillow. -/
theorem assemble_strategy_selection :
    (∀ (pilOk : Bool) (read : String → Option Img) (paths : List String)
        (imgs : List Img), paths.mapM read = some imgs →
      assemble_pdf true pilOk read paths = .ok imgs)
    ∧ (∀ (read : String → Option Img) (paths : List String) (imgs : List Img),
        paths.mapM read = some imgs → imgs ≠ [] →
      assemble_pdf false true read paths = .ok (imgs.map convertRGB))
    ∧ (∀ (read : String → Option Img) (paths : List String),
        assemble_pdf false false read paths = .error assembleMsg)
    ∧ assembleMsg =
        "Impossible de assembler en PDF. Installe " ++ "img2pdf" ++ " ou " ++ "pillow" ++ "." :=
  ⟨assemble_primary, assemble_fallback, assemble_unavailable, rfl⟩

theorem assemble_strategy_selection_witness :
    assemble_pdf true true (fun _ => some ⟨7, "raw"⟩) ["page_0001.jpg"] = .ok [⟨7, "raw"⟩]
    ∧ assemble_pdf false true (fun _ => some ⟨7, "raw"⟩) ["page_0001.jpg"]
        = .ok [⟨7, "RGB"⟩]
    ∧ assemble_pdf false false (fun _ => some ⟨7, "raw"⟩) ["page_0001.jpg"]
        = .error assembleMsg :=
  ⟨assemble_strategy_selection.1 true _ _ [⟨7, "raw"⟩] rfl,
   assemble_strategy_selection.2.1 _ _ [⟨7, "raw"⟩] rfl (by simp),
   assemble_strategy_selection.2.2.1 _ _⟩

/-! ### Page file names and download-order independence

`main` (line 407) names page files `page_{i:04d}.jpg`; line 421 hands the
Assembler `[page_0001.jpg, ..., page_NNNN.jpg]` built from `range`, never
from the completion order of the download pool.  `decRepr` is the decimal
representation used by the format string, zero-padded to width 4. -/

def decDigit (d : Nat) : Char := Char.ofNat (48 + d)

def decRepr (n : Nat) : List Char :=
  if n < 10 then [decDigit n]
  else decRepr (n / 10) ++ [decDigit (n % 10)]
termination_by n
decreasing_by exact Nat.div_lt_self (by omega) (by omega)

def decVal (l : List Char) : Nat :=
  l.foldl (fun a c => 10 * a + (c.toNat - 48)) 0

def pad4 (n : Nat) : List Char :=
  List.replicate (4 - (decRepr n).length) '0' ++ decRepr n

def pageFileName (i : Nat) : String :=
  String.mk ("page_".data ++ pad4 i ++ ".jpg".data)

def assemblyInputs (n : Nat) : List String :=
  (List.range n).map (fun k => pageFileName (k + 1))

theorem decDigit_toNat : ∀ d, d < 10 → (decDigit d).toNat = 48 + d := by decide

theorem decVal_decRepr : ∀ n, decVal (decRepr n) = n := by
  intro n
  induction n using Nat.strong_induction_on with
  | _ n ih =>
    rw [decRepr]
    split
    · rename_i h
      simp only [decVal, List.foldl_cons, List.foldl_nil]
      rw [decDigit_toNat n h]
      omega
    · rename_i h
      push_neg at h
      have hd : n / 10 < n := Nat.div_lt_self (by omega) (by omega)
      have hv := ih (n / 10) hd
      rw [decVal] at hv
      simp only [decVal, List.foldl_append, List.foldl_cons, List.foldl_nil]
      rw [hv, decDigit_toNat (n % 10) (Nat.mod_lt _ (by omega))]
      omega

theorem decRepr_ne_nil (n : Nat) : decRepr n ≠ [] := by
  rw [decRepr]
  split
  · exact fun hc => List.noConfusion hc
  · simp

theorem decDigit_pos_ne_zero : ∀ d, d < 10 → 1 ≤ d → decDigit d ≠ '0' := by decide

theorem decRepr_head_ne_zero :
    ∀ n, 1 ≤ n → ∀ c cs, decRepr n = c :: cs → c ≠ '0' := by
  intro n
  induction n using Nat.strong_induction_on with
  | _ n ih =>
    intro hn c cs hrepr
    rw [decRepr] at hrepr
    split at hrepr
    · rename_i h
      rw [List.cons.injEq] at hrepr
      rw [← hrepr.1]
      exact decDigit_pos_ne_zero n h hn
    · rename_i h
      push_neg at h
      rcases hrec : decRepr (n / 10) with _ | ⟨c', cs'⟩
      · exact absurd hrec (decRepr_ne_nil (n / 10))
      · rw [hrec, List.cons_append, List.cons.injEq] at hrepr
        rw [← hrepr.1]
        exact ih (n / 10) (Nat.div_lt_self (by omega) (by omega))
          (Nat.one_le_div_iff (by omega) |>.mpr h) c' cs' hrec

def stripZeros (l : List Char) : List Char := l.dropWhile (fun c => c == '0')

theorem stripZeros_replicate (k : Nat) (l : List Char) :
    stripZeros (List.replicate k '0' ++ l) = stripZeros l := by
  induction k with
  | zero => rfl
  | succ m ih =>
    rw [List.replicate_succ, List.cons_append, stripZeros, List.dropWhile_cons,
      if_pos (by decide)]
    exact ih

theorem stripZeros_of_head (c : Char) (cs : List Char) (hc : c ≠ '0') :
    stripZeros (c :: cs) = c :: cs := by
  rw [stripZeros, List.dropWhile_cons, if_neg]
  simp [hc]

theorem stripZeros_pad4 (a : Nat) (ha : 1 ≤ a) : stripZeros (pad4 a) = decRepr a := by
  rcases hrec : decRepr a with _ | ⟨c, cs⟩
  · exact absurd hrec (decRepr_ne_nil a)
  · rw [pad4, hrec, stripZeros_replicate,
      stripZeros_of_head c cs (decRepr_head_ne_zero a ha c cs hrec)]

theorem pad4_inj (a b : Nat) (ha : 1 ≤ a) (hb : 1 ≤ b) (h : pad4 a = pad4 b) :
    a = b := by
  have hab : decRepr a = decRepr b := by
    rw [← stripZeros_pad4 a ha, ← stripZeros_pad4 b hb, h]
  have := congrArg decVal hab
  rwa [decVal_decRepr, decVal_decRepr] at this

theorem pageFileName_inj (a b : Nat) (ha : 1 ≤ a) (hb : 1 ≤ b)
    (h : pageFileName a = pageFileName b) : a = b := by
  rw [pageFileName, pageFileName] at h
  injection h with h1
  rw [List.append_assoc, List.append_assoc] at h1
  exact pad4_inj a b ha hb
    (List.append_cancel_right (List.append_cancel_left h1))

/-- Writing one downloaded page file into the workspace. -/
def writeImg (ws : String → Option Img) (p : String) (im : Img) :
    String → Option Img :=
  fun q => if q = p then some im else ws q

/-- The effect of the download pool on the workspace: the page files are
written one by one in whatever order the workers complete them. -/
def applyJobs : List (String × Img) → (String → Option Img) → (String → Option Img)
  | [], ws => ws
  | j :: rest, ws => applyJobs rest (writeImg ws j.1 j.2)

/-- The jobs `main` builds (lines 405-412) for a manifest with `n` canvases:
page `i` (1-based ordinal) is stored at `page_{i:04d}.jpg`. -/
def pageJobs (n : Nat) (content : Nat → Img) : List (String × Img) :=
  (List.range n).map (fun k => (pageFileName (k + 1), content (k + 1)))

theorem applyJobs_not_mem (jobs : List (String × Img)) :
    ∀ ws p, (∀ j ∈ jobs, j.1 ≠ p) → applyJobs jobs ws p = ws p := by
  induction jobs with
  | nil => intro ws p _; rfl
  | cons j rest ih =>
    intro ws p h
    rw [applyJobs, ih _ p (fun j' hj' => h j' (List.mem_cons_of_mem _ hj')),
      writeImg]
    rw [if_neg (fun hc => h j (List.mem_cons_self _ _) hc.symm)]

theorem applyJobs_mem (jobs : List (String × Img)) :
    ∀ ws p v, (p, v) ∈ jobs → (jobs.map Prod.fst).Nodup →
      applyJobs jobs ws p = some v := by
  induction jobs with
  | nil => intro ws p v hm _; exact absurd hm (List.not_mem_nil _)
  | cons j rest ih =>
    intro ws p v hm hnd
    rw [List.map_cons, List.nodup_cons] at hnd
    rcases List.mem_cons.mp hm with hEq | hmem
    · have hj1 : j.1 = p := by rw [← hEq]
      have hk : ∀ j' ∈ rest, j'.1 ≠ p := by
        intro j' hj' hc
        exact hnd.1 (by
          rw [hj1, ← hc]
          exact List.mem_map_of_mem Prod.fst hj')
      rw [applyJobs, applyJobs_not_mem rest _ p hk, ← hEq, writeImg, if_pos rfl]
    · exact applyJobs.eq_2 _ _ _ ▸ ih _ p v hmem hnd.2

theorem pageJobs_keys_nodup (n : Nat) (content : Nat → Img) :
    ((pageJobs n content).map Prod.fst).Nodup := by
  have hmap : (pageJobs n content).map Prod.fst
      = (List.range n).map (fun k => pageFileName (k + 1)) := by
    rw [pageJobs, List.map_map]
    rfl
  rw [hmap]
  refine List.Nodup.map_on ?_ (List.nodup_range n)
  intro x _ y _ hxy
  have := pageFileName_inj (x + 1) (y + 1) (by omega) (by omega) hxy
  omega

/-- Claim C4: however the download pool's completion interleaves its writes
(any permutation of the page jobs), the workspace ends identical; the
Assembler is invoked on `page_0001.jpg` through `page_NNNN.jpg` in ascending
ordinal order (line 421 builds the list from `range`, not from completion
order), those reads yield the pages in canvas-ordinal order, and both
assembly strategies preserve that input order in the output document. -/
theorem assembly_order_matches_ordinals (n : Nat) (content : Nat → Img)
    (order : List (String × Img)) (ws0 : String → Option Img)
    (hperm : order.Perm (pageJobs n content)) :
    (assemblyInputs n).map (applyJobs order ws0)
      = (List.range n).map (fun k => some (content (k + 1)))
    ∧ (∀ pilOk, assemble_pdf true pilOk (applyJobs order ws0) (assemblyInputs n)
        = .ok ((List.range n).map (fun k => content (k + 1))))
    ∧ (1 ≤ n → assemble_pdf false true (applyJobs order ws0) (assemblyInputs n)
        = .ok (((List.range n).map (fun k => content (k + 1))).map convertRGB)) := by
  have hnodup : (order.map Prod.fst).Nodup :=
    ((hperm.map Prod.fst).nodup_iff).mpr (pageJobs_keys_nodup n content)
  have hkey : ∀ k ∈ List.range n,
      applyJobs order ws0 (pageFileName (k + 1)) = some (content (k + 1)) := by
    intro k hk
    exact applyJobs_mem order ws0 _ _
      (hperm.mem_iff.mpr (List.mem_map_of_mem _ hk)) hnodup
  have h1 : (assemblyInputs n).map (applyJobs order ws0)
      = (List.range n).map (fun k => some (content (k + 1))) := by
    rw [assemblyInputs, List.map_map]
    exact List.map_congr_left hkey
  have hmapM : (assemblyInputs n).mapM (applyJobs order ws0)
      = some ((List.range n).map (fun k => content (k + 1))) := by
    apply mapM_of_map_some
    rw [h1, List.map_map]
    rfl
  refine ⟨h1, fun pilOk => assemble_primary pilOk _ _ _ hmapM, fun hn => ?_⟩
  refine assemble_fallback _ _ _ hmapM ?_
  intro hc
  rw [List.map_eq_nil_iff, List.range_eq_nil] at hc
  omega

def contentW : Nat → Img := fun k => ⟨k, "jpeg"⟩

theorem assembly_order_matches_ordinals_witness :
    (assemblyInputs 2).map (applyJobs ((pageJobs 2 contentW).reverse) (fun _ => none))
      = (List.range 2).map (fun k => some (contentW (k + 1)))
    ∧ assemble_pdf true true (applyJobs ((pageJobs 2 contentW).reverse) (fun _ => none))
        (assemblyInputs 2) = .ok ((List.range 2).map (fun k => contentW (k + 1)))
    ∧ assemble_pdf false true (applyJobs ((pageJobs 2 contentW).reverse) (fun _ => none))
        (assemblyInputs 2)
      = .ok (((List.range 2).map (fun k => contentW (k + 1))).map convertRGB) := by
  have h := assembly_order_matches_ordinals 2 contentW
    ((pageJobs 2 contentW).reverse) (fun _ => none) (List.reverse_perm _)
  exact ⟨h.1, h.2.1 true, h.2.2 (by omega)⟩

/-! ## Identifier resolver (`ark_from_url`, src/gallica.py lines 44-55)

The source searches the regex `/ark:/12148/([^/?#]+)` with `re.IGNORECASE`
and returns `group(1).strip()`.  The search is embedded generically over a
character comparison `eqc`, instantiated with case-insensitive comparison
(`ciEqc`, what the code does) and literal comparison (`litEqc`, what the
spec's written pattern says): `re.search` tries each start position left to
right; at a position the fixed pattern must match and at least one
non-stop character (`[^/?#]+`, greedy) must follow. -/

def stopChar (c : Char) : Bool := c == '/' || c == '?' || c == '#'

def arkPat : List Char := "/ark:/12148/".data

def chMatch (eqc : Char → Char → Bool) : List Char → List Char → Option (List Char)
  | [], s => some s
  | _ :: _, [] => none
  | p :: ps, c :: cs => if eqc c p then chMatch eqc ps cs else none

/-- Attempt the regex at one start position: match the fixed pattern, then
take the maximal run of non-stop characters; fail when that run is empty. -/
def genTokenAt (eqc : Char → Char → Bool) (s : List Char) : Option (List Char) :=
  match chMatch eqc arkPat s with
  | none => none
  | some rest =>
    let t := rest.takeWhile (fun c => !stopChar c)
    if t.isEmpty then none else some t

/-- Leftmost search over all start positions, as `re.search` does. -/
def genSearch (eqc : Char → Char → Bool) : List Char → Option (List Char)
  | [] => none
  | c :: rest =>
    match genTokenAt eqc (c :: rest) with
    | some t => some t
    | none => genSearch eqc rest

def ciEqc (a b : Char) : Bool := a.toLower == b.toLower

def litEqc (a b : Char) : Bool := a == b

/-- The whitespace set of Python `str.strip()` (ASCII part). -/
def isSpaceChar (c : Char) : Bool :=
  c == ' ' || c == '\t' || c == '\n' || c == '\r' || c == '\x0b' || c == '\x0c'

/-- Python `.strip()`: drop whitespace from both ends. -/
def stripChars (l : List Char) : List Char :=
  ((l.dropWhile isSpaceChar).reverse.dropWhile isSpaceChar).reverse

/-- `ark_from_url`: `none` models the `ValueError` raised when the pattern
is absent. -/
def ark_from_url (url : String) : Option String :=
  (genSearch ciEqc url.data).map (fun t => String.mk (stripChars t))

/-- The spec-side reading of "contains `/ark:/12148/<token>`": some
decomposition places the 12-character pattern (under comparison `eqc`),
then a non-empty token free of `/`, `?`, `#`, terminated by one of those
stop characters or the end of the string. -/
def PatMatches (eqc : Char → Char → Bool) (q : List Char) : Prop :=
  List.Forall₂ (fun c p => eqc c p = true) q arkPat

def Boundary (rest : List Char) : Prop :=
  rest = [] ∨ ∃ c r2, rest = c :: r2 ∧ stopChar c = true

def HasArk (eqc : Char → Char → Bool) (s : List Char) : Prop :=
  ∃ p q t rest, s = p ++ q ++ t ++ rest ∧ PatMatches eqc q ∧ t ≠ []
    ∧ (∀ c ∈ t, stopChar c = false) ∧ Boundary rest

theorem chMatch_some_decomp (eqc : Char → Char → Bool) :
    ∀ (pat s r : List Char), chMatch eqc pat s = some r →
      ∃ q, s = q ++ r ∧ List.Forall₂ (fun c p => eqc c p = true) q pat := by
  intro pat
  induction pat with
  | nil =>
    intro s r h
    rw [chMatch] at h
    injection h with h'
    exact ⟨[], by rw [h', List.nil_append], List.Forall₂.nil⟩
  | cons p ps ih =>
    intro s r h
    cases s with
    | nil =>
      rw [chMatch] at h
      exact absurd h (fun hc => Option.noConfusion hc)
    | cons c cs =>
      rw [chMatch] at h
      by_cases he : eqc c p = true
      · rw [if_pos he] at h
        obtain ⟨q, hq, hf⟩ := ih cs r h
        exact ⟨c :: q, by rw [List.cons_append, hq], List.Forall₂.cons he hf⟩
      · rw [if_neg he] at h
        exact absurd h (fun hc => Option.noConfusion hc)

theorem chMatch_append (eqc : Char → Char → Bool) (pat q x : List Char)
    (hf : List.Forall₂ (fun c p => eqc c p = true) q pat) :
    chMatch eqc pat (q ++ x) = some x := by
  induction hf with
  | nil => rfl
  | cons he _ ih =>
    rw [List.cons_append, chMatch, if_pos he]
    exact ih

theorem mem_takeWhile_pred (p : Char → Bool) :
    ∀ (l : List Char) (c : Char), c ∈ l.takeWhile p → p c = true := by
  intro l
  induction l with
  | nil => intro c h; exact absurd h (List.not_mem_nil c)
  | cons a l' ih =>
    intro c h
    rw [List.takeWhile_cons] at h
    by_cases ha : p a = true
    · rw [if_pos ha] at h
      rcases List.mem_cons.mp h with hEq | hm
      · rw [hEq]; exact ha
      · exact ih c hm
    · rw [if_neg ha] at h
      exact absurd h (List.not_mem_nil c)

theorem dropWhile_head_false (p : Char → Bool) :
    ∀ l : List Char,
      l.dropWhile p = [] ∨ ∃ c r2, l.dropWhile p = c :: r2 ∧ p c = false := by
  intro l
  induction l with
  | nil => exact Or.inl rfl
  | cons a l' ih =>
    rw [List.dropWhile_cons]
    by_cases ha : p a = true
    · rw [if_pos ha]; exact ih
    · rw [if_neg ha]
      exact Or.inr ⟨a, l', rfl, by revert ha; cases p a <;> simp⟩

theorem takeWhile_append_boundary (p : Char → Bool) :
    ∀ (t rest : List Char), (∀ c ∈ t, p c = true) →
      (rest = [] ∨ ∃ c r2, rest = c :: r2 ∧ p c = false) →
      (t ++ rest).takeWhile p = t := by
  intro t
  induction t with
  | nil =>
    intro rest _ hb
    rcases hb with h | ⟨c, r2, hr, hc⟩
    · rw [h]; rfl
    · rw [List.nil_append, hr, List.takeWhile_cons, if_neg (by simp [hc])]
  | cons a t' ih =>
    intro rest ha hb
    rw [List.cons_append, List.takeWhile_cons, if_pos (ha a (List.mem_cons_self _ _)),
      ih rest (fun c hc => ha c (List.mem_cons_of_mem _ hc)) hb]

theorem genTokenAt_some (eqc : Char → Char → Bool) (s t : List Char)
    (h : genTokenAt eqc s = some t) :
    ∃ q rest, s = q ++ t ++ rest ∧ PatMatches eqc q ∧ t ≠ []
      ∧ (∀ c ∈ t, stopChar c = false) ∧ Boundary rest := by
  rw [genTokenAt] at h
  rcases hm : chMatch eqc arkPat s with _ | r
  · rw [hm] at h
    exact absurd h (fun hc => Option.noConfusion hc)
  · rw [hm] at h
    dsimp only at h
    by_cases he : (r.takeWhile (fun c => !stopChar c)).isEmpty = true
    · rw [if_pos he] at h
      exact absurd h (fun hc => Option.noConfusion hc)
    · rw [if_neg he] at h
      injection h with ht
      obtain ⟨q, hq, hf⟩ := chMatch_some_decomp eqc arkPat s r hm
      refine ⟨q, r.dropWhile (fun c => !stopChar c), ?_, hf, ?_, ?_, ?_⟩
      · rw [hq, ← ht, List.append_assoc, List.takeWhile_append_dropWhile]
      · intro hc
        rw [hc] at ht
        rw [ht] at he
        exact he rfl
      · intro c hc
        rw [← ht] at hc
        have := mem_takeWhile_pred _ r c hc
        simpa using this
      · rcases dropWhile_head_false (fun c => !stopChar c) r with hnil | ⟨c, r2, hr, hc⟩
        · exact Or.inl hnil
        · exact Or.inr ⟨c, r2, hr, by simpa using hc⟩

theorem genTokenAt_of_decomp (eqc : Char → Char → Bool) (q t rest : List Char)
    (hq : PatMatches eqc q) (ht : t ≠ []) (hall : ∀ c ∈ t, stopChar c = false)
    (hb : Boundary rest) :
    genTokenAt eqc (q ++ t ++ rest) = some t := by
  rw [genTokenAt, List.append_assoc, chMatch_append eqc arkPat q (t ++ rest) hq]
  dsimp only
  rw [takeWhile_append_boundary _ t rest (fun c hc => by simp [hall c hc]) ?bnd]
  · rw [if_neg (by simpa using ht)]
  case bnd =>
    rcases hb with h | ⟨c, r2, hr, hc⟩
    · exact Or.inl h
    · exact Or.inr ⟨c, r2, hr, by simp [hc]⟩

theorem genTokenAt_nil (eqc : Char → Char → Bool) : genTokenAt eqc [] = none := rfl

theorem genSearch_none_iff (eqc : Char → Char → Bool) :
    ∀ s, genSearch eqc s = none ↔ ∀ i, genTokenAt eqc (s.drop i) = none := by
  intro s
  induction s with
  | nil =>
    constructor
    · intro _ i
      rw [List.drop_nil]
      exact genTokenAt_nil eqc
    · intro _; rfl
  | cons c rest ih =>
    rcases hT : genTokenAt eqc (c :: rest) with _ | t
    · rw [genSearch, hT]
      dsimp only
      constructor
      · intro hs i
        cases i with
        | zero => exact hT
        | succ j =>
          rw [List.drop_succ_cons]
          exact (ih.mp hs) j
      · intro hall
        exact ih.mpr (fun j => by
          have := hall (j + 1)
          rwa [List.drop_succ_cons] at this)
    · rw [genSearch, hT]
      dsimp only
      constructor
      · intro hc
        exact absurd hc (fun hc' => Option.noConfusion hc')
      · intro hall
        have h0 := hall 0
        rw [List.drop_zero, hT] at h0
        exact absurd h0 (fun hc' => Option.noConfusion hc')

theorem genSearch_some_exists (eqc : Char → Char → Bool) :
    ∀ s t, genSearch eqc s = some t → ∃ i, genTokenAt eqc (s.drop i) = some t := by
  intro s
  induction s with
  | nil =>
    intro t h
    exact absurd h (fun hc => Option.noConfusion hc)
  | cons c rest ih =>
    intro t h
    rcases hT : genTokenAt eqc (c :: rest) with _ | t'
    · rw [genSearch, hT] at h
      dsimp only at h
      obtain ⟨i, hi⟩ := ih t h
      exact ⟨i + 1, by rwa [List.drop_succ_cons]⟩
    · rw [genSearch, hT] at h
      dsimp only at h
      injection h with h'
      exact ⟨0, by rw [List.drop_zero, hT, h']⟩

theorem hasArk_iff_isSome (eqc : Char → Char → Bool) (s : List Char) :
    HasArk eqc s ↔ (genSearch eqc s).isSome = true := by
  constructor
  · rintro ⟨p, q, t, rest, hs, hq, ht, hall, hb⟩
    have hs' : s = p ++ (q ++ (t ++ rest)) := by
      rw [hs]; simp [List.append_assoc]
    have htok : genTokenAt eqc (s.drop p.length) = some t := by
      rw [hs', List.drop_left]
      have h2 : q ++ (t ++ rest) = q ++ t ++ rest := by simp [List.append_assoc]
      rw [h2]
      exact genTokenAt_of_decomp eqc q t rest hq ht hall hb
    rcases hS : genSearch eqc s with _ | t'
    · exfalso
      have := (genSearch_none_iff eqc s).mp hS p.length
      rw [this] at htok
      exact Option.noConfusion htok
    · rfl
  · intro h
    obtain ⟨t, hS⟩ := Option.isSome_iff_exists.mp h
    obtain ⟨i, hi⟩ := genSearch_some_exists eqc s t hS
    obtain ⟨q, rest, hdec, hq, ht, hall, hb⟩ := genTokenAt_some eqc _ t hi
    refine ⟨s.take i, q, t, rest, ?_, hq, ht, hall, hb⟩
    conv_lhs => rw [← List.take_append_drop i s]
    rw [hdec]
    simp [List.append_assoc]

theorem genSearch_leftmost (eqc : Char → Char → Bool) :
    ∀ (p s q t rest : List Char), s = p ++ q ++ t ++ rest →
      PatMatches eqc q → t ≠ [] → (∀ c ∈ t, stopChar c = false) → Boundary rest →
      (∀ i, i < p.length → genTokenAt eqc (s.drop i) = none) →
      genSearch eqc s = some t := by
  intro p
  induction p with
  | nil =>
    intro s q t rest hs hq ht hall hb _
    rcases hq' : q with _ | ⟨qc, q'⟩
    · rw [hq'] at hq
      exact absurd (List.Forall₂.length_eq hq) (by decide)
    · have hform : s = qc :: (q' ++ (t ++ rest)) := by
        rw [hs, hq']; simp [List.append_assoc]
      have htok : genTokenAt eqc (qc :: (q' ++ (t ++ rest))) = some t := by
        have h2 : qc :: (q' ++ (t ++ rest)) = q ++ t ++ rest := by
          rw [hq']; simp [List.append_assoc]
        rw [h2]
        exact genTokenAt_of_decomp eqc q t rest hq ht hall hb
      rw [hform, genSearch, htok]
  | cons pc p' ih =>
    intro s q t rest hs hq ht hall hb hnone
    have hform : s = pc :: (p' ++ (q ++ (t ++ rest))) := by
      rw [hs]; simp [List.append_assoc]
    have h0 : genTokenAt eqc s = none := by
      have := hnone 0 (by simp)
      rwa [List.drop_zero] at this
    rw [hform] at h0
    rw [hform, genSearch, h0]
    exact ih (p' ++ (q ++ (t ++ rest))) q t rest (by simp [List.append_assoc]) hq ht hall hb
      (fun i hi => by
        have hh := hnone (i + 1) (by simpa using Nat.succ_lt_succ hi)
        rw [hform, List.drop_succ_cons] at hh
        exact hh)

/-- Claim C7 (amended): the search is case-insensitive (`re.IGNORECASE`).
For every locator containing `/ark:/12148/<token>` up to letter case —
token non-empty, free of `/`, `?`, `#`, terminated by one of those or the
end of the string — with no earlier position matching, the resolver returns
exactly that token stripped of whitespace; and for every locator lacking
the pattern even case-insensitively, it fails with the parse error.
(The original claim's negative half used the literal lowercase pattern; the
counterexample `/ARK:/12148/x` lacks it yet resolves to `x`.) -/
theorem ark_from_url_extraction :
    (∀ (url : String) (p q t rest : List Char),
      url.data = p ++ q ++ t ++ rest →
      PatMatches ciEqc q → t ≠ [] → (∀ c ∈ t, stopChar c = false) →
      Boundary rest →
      (∀ i, i < p.length → genTokenAt ciEqc (url.data.drop i) = none) →
      ark_from_url url = some (String.mk (stripChars t)))
    ∧ (∀ url : String, ¬ HasArk ciEqc url.data → ark_from_url url = none) := by
  constructor
  · intro url p q t rest hdec hq ht hall hb hleft
    have hsearch : genSearch ciEqc url.data = some t :=
      genSearch_leftmost ciEqc p url.data q t rest hdec hq ht hall hb hleft
    rw [ark_from_url, hsearch]
    rfl
  · intro url hnot
    rw [ark_from_url]
    rcases hS : genSearch ciEqc url.data with _ | t
    · rfl
    · exact absurd ((hasArk_iff_isSome ciEqc url.data).mpr (by rw [hS]; rfl)) hnot

/-- Counterexample to claim C7 as stated: the locator `/ARK:/12148/x` does
not contain the literal pattern `/ark:/12148/<token>` (its letters are
upper-case), so per the claim the resolver should fail with a parse error;
instead the `re.IGNORECASE` search succeeds and returns `x`. -/
theorem ark_case_insensitive_cex :
    ¬ HasArk litEqc ("/ARK:/12148/x".data)
    ∧ ark_from_url "/ARK:/12148/x" = some "x" := by
  constructor
  · intro h
    have hs := (hasArk_iff_isSome litEqc _).mp h
    rw [(by decide : genSearch litEqc ("/ARK:/12148/x".data) = none)] at hs
    exact Bool.noConfusion hs
  · decide

theorem forall2_ci_refl : ∀ l : List Char, List.Forall₂ (fun c p => ciEqc c p = true) l l := by
  intro l
  induction l with
  | nil => exact List.Forall₂.nil
  | cons c cs ih => exact List.Forall₂.cons (by simp [ciEqc]) ih

theorem ark_from_url_extraction_witness :
    ark_from_url "/ark:/12148/bd6t54208770t?rk=1"
      = some (String.mk (stripChars ("bd6t54208770t".data)))
    ∧ String.mk (stripChars ("bd6t54208770t".data)) = "bd6t54208770t"
    ∧ ark_from_url "https://example.org/nothing" = none := by
  refine ⟨?_, by decide, ?_⟩
  · exact ark_from_url_extraction.1 "/ark:/12148/bd6t54208770t?rk=1"
      [] arkPat ("bd6t54208770t".data) ("?rk=1".data)
      (by decide) (forall2_ci_refl arkPat) (by decide) (by decide)
      (Or.inr ⟨'?', "rk=1".data, by decide, by decide⟩)
      (fun i hi => absurd hi (by simp))
  · refine ark_from_url_extraction.2 "https://example.org/nothing" ?_
    intro h
    have hs := (hasArk_iff_isSome ciEqc _).mp h
    rw [(by decide : genSearch ciEqc ("https://example.org/nothing".data) = none)] at hs
    exact Bool.noConfusion hs

end Gallica
